import Mathlib

/-!
Verification of the DisneyLiveDB class (src/unnamed/part_000, lines 196 to
407): a PouchDB backed document store that replicates a remote CouchDB
style endpoint into a local replica, snapshots the replica to disk, and
exposes init() and get().

The stateful coordination code (the synced flag, initPromiseSync, and
databaseDumpPendingPromise) is embedded as small step machines over
explicit state types; each event of a machine is one promise settlement
together with the synchronous continuation of the task that awaited it,
matching the run-to-completion scheduling of Node: between two events no
other store mutation can interleave.
-/

namespace WDWDB

/-- A stored document: an opaque revision token assigned by the remote
store together with the document body. -/
structure Doc where
  rev : Nat
  body : String
deriving DecidableEq, Repr

/-- A document store, as an association list from document id to the
current document: one entry per id for stores built with putDoc. -/
abbrev Store := List (String × Doc)

/-- Look up a document by id: the first binding wins (stores built with
putDoc carry at most one binding per id). -/
def lookupDoc : Store → String → Option Doc
  | [], _ => none
  | (k, d) :: rest, i => if k = i then some d else lookupDoc rest i

/-- Insert a document, replacing any existing binding for the same id. -/
def putDoc : Store → String → Doc → Store
  | [], i, d => [(i, d)]
  | (k, e) :: rest, i, d =>
      if k = i then (k, d) :: rest else (k, e) :: putDoc rest i d

/-- One bounded batch replication pass (src lines 313 to 315):
PouchDB.replicate from this.remoteDB into this.localDB with a fixed
batch_size copies every outstanding remote document into the local store,
the remote revision winning (last write wins at remote assigned revision
granularity, no local merge). -/
def replicateAll (remote localStore : Store) : Store :=
  remote.foldl (fun acc p => putDoc acc p.1 p.2) localStore

theorem lookupDoc_putDoc_self (s : Store) (i : String) (d : Doc) :
    lookupDoc (putDoc s i d) i = some d := by
  induction s with
  | nil => simp [putDoc, lookupDoc]
  | cons hd tl ih =>
      obtain ⟨k, e⟩ := hd
      by_cases hk : k = i
      · simp [putDoc, hk, lookupDoc]
      · simp [putDoc, hk, lookupDoc, ih]

theorem lookupDoc_putDoc_ne (s : Store) (i j : String) (d : Doc)
    (h : i ≠ j) : lookupDoc (putDoc s i d) j = lookupDoc s j := by
  induction s with
  | nil => simp [putDoc, lookupDoc, h]
  | cons hd tl ih =>
      obtain ⟨k, e⟩ := hd
      by_cases hk : k = i
      · subst hk
        simp [putDoc, lookupDoc, h]
      · simp [putDoc, hk, lookupDoc, ih]

theorem lookupDoc_eq_none_of_not_mem (s : Store) (i : String)
    (h : i ∉ s.map Prod.fst) : lookupDoc s i = none := by
  induction s with
  | nil => simp [lookupDoc]
  | cons hd tl ih =>
      obtain ⟨k, e⟩ := hd
      simp only [List.map_cons, List.mem_cons] at h
      push_neg at h
      have hk : ¬ k = i := fun hh => h.1 hh.symm
      simp [lookupDoc, hk, ih h.2]

/-- Folding putDoc over a list with pairwise distinct ids looks up the id
in that list first, falling back to the accumulator store. -/
theorem lookupDoc_foldl_putDoc (xs : List (String × Doc)) (acc : Store)
    (i : String) (h : (xs.map Prod.fst).Nodup) :
    lookupDoc (xs.foldl (fun a p => putDoc a p.1 p.2) acc) i =
      match lookupDoc xs i with
      | some d => some d
      | none => lookupDoc acc i := by
  induction xs generalizing acc with
  | nil => simp [lookupDoc]
  | cons hd tl ih =>
      obtain ⟨k, d⟩ := hd
      simp only [List.map_cons, List.nodup_cons] at h
      by_cases hk : k = i
      · subst hk
        have hnone : lookupDoc tl k = none :=
          lookupDoc_eq_none_of_not_mem tl k h.1
        simp only [List.foldl_cons, ih (putDoc acc k d) h.2, hnone,
          lookupDoc, if_pos rfl]
        exact lookupDoc_putDoc_self acc k d
      · simp only [List.foldl_cons, ih (putDoc acc k d) h.2, lookupDoc,
          if_neg hk]
        cases hx : lookupDoc tl i with
        | some d2 => rfl
        | none => exact lookupDoc_putDoc_ne acc k i d fun hh => hk hh

/-- Error results of a PouchDB method call in this model. -/
inductive JSError
  | typeError
  | notFound
deriving DecidableEq, Repr

/-- The receiver object (the JavaScript `this`) of a call to the method
PouchDB.prototype.get: either an actual PouchDB store, or the
DisneyLiveDB wrapper object itself, which holds a localDB field but none
of the internal PouchDB adapter state. -/
inductive JSReceiver
  | pouchStore (s : Store)
  | liveDBInstance (localDB : Store)
deriving DecidableEq, Repr

/-- PouchDB.prototype.get reads the database internals (adapter, task
queue) off its receiver. Invoked with an actual PouchDB store it resolves
the lookup, rejecting with a not-found error for an absent id; invoked
with the DisneyLiveDB wrapper as receiver it finds no PouchDB internals
there and the call rejects with a TypeError. -/
def pouchGet : JSReceiver → String → Except JSError Doc
  | JSReceiver.pouchStore s, i =>
      match lookupDoc s i with
      | some d => Except.ok d
      | none => Except.error JSError.notFound
  | JSReceiver.liveDBInstance _, _ => Except.error JSError.typeError

/-- Embedding of the body of DisneyLiveDB.get once init has resolved
(src line 405): `return await this.localDB.get.apply(this, args)` invokes
PouchDB get with `this` — the DisneyLiveDB instance — as receiver, not
with this.localDB. -/
def DisneyLiveDB.getAfterInit (localDB : Store) (i : String) :
    Except JSError Doc :=
  pouchGet (JSReceiver.liveDBInstance localDB) i

/-- Modelled from the spec (section 4.1 and the method doc comment in the
source): get(id) awaits init then reads LocalStore by id, failing with
NotFound when the id is absent. Stated for comparison with the source
embedding DisneyLiveDB.getAfterInit above. -/
def specGet (localDB : Store) (i : String) : Except JSError Doc :=
  pouchGet (JSReceiver.pouchStore localDB) i

/-- C1: for every document id present on the remote source before the
first init call, after init resolves, get(id) is claimed to return a body
equal to the remote value for that id. The initial batch replication does
bring the document into the local store, and the spec reading of get
would return it, but src line 405 passes the wrong receiver (`this`
instead of `this.localDB`) to PouchDB get, so the call rejects with a
TypeError instead of returning the body — contradicting the claim and the
method doc comment in the source itself. Evaluated here at the concrete
failing input: remote holding document A with body OPERATING. -/
theorem dlDB_C1_get_receiver_bug :
    replicateAll [("A", ⟨1, "OPERATING"⟩)] [] = [("A", ⟨1, "OPERATING"⟩)] ∧
    specGet (replicateAll [("A", ⟨1, "OPERATING"⟩)] []) "A" =
      Except.ok ⟨1, "OPERATING"⟩ ∧
    DisneyLiveDB.getAfterInit (replicateAll [("A", ⟨1, "OPERATING"⟩)] []) "A" =
      Except.error JSError.typeError := by
  refine ⟨rfl, rfl, rfl⟩

/-- Serialized content of the snapshot file written by dump (src lines
359 to 380): the full current local store content, streamed in order. -/
def dumpFileContent (s : Store) : List (String × Doc) := s

/-- Embedding of load (src lines 336 to 353): stream the snapshot file
into the local store in bounded batches, inserting every stored
document. -/
def loadFile (f : List (String × Doc)) (localStore : Store) : Store :=
  f.foldl (fun a p => putDoc a p.1 p.2) localStore

/-- C5: a completed dump followed by a load of the written snapshot file
into a fresh local store, with no intervening remote changes, produces a
store content-equal to the store at dump time: the lookup of every id
agrees. -/
theorem dlDB_C5_dump_load_roundtrip (s : Store)
    (h : (s.map Prod.fst).Nodup) (i : String) :
    lookupDoc (loadFile (dumpFileContent s) []) i = lookupDoc s i := by
  unfold loadFile dumpFileContent
  rw [lookupDoc_foldl_putDoc s [] i h]
  cases hx : lookupDoc s i with
  | some d => rfl
  | none => rfl

theorem dlDB_C5_dump_load_roundtrip_witness :
    lookupDoc
      (loadFile (dumpFileContent [("A", ⟨1, "x"⟩), ("B", ⟨2, "y"⟩)]) []) "A" =
      lookupDoc [("A", ⟨1, "x"⟩), ("B", ⟨2, "y"⟩)] "A" :=
  dlDB_C5_dump_load_roundtrip [("A", ⟨1, "x"⟩), ("B", ⟨2, "y"⟩)]
    (by decide) "A"

/-- Status of a JavaScript promise in this model; error values are
abstracted to Nat codes. -/
inductive PState
  | pending
  | resolved
  | rejected (e : Nat)
deriving DecidableEq, Repr

/-- What the synchronous head of one init() call (src lines 276 to 284)
hands its caller: the fast path return when this.synced is already true,
or the shared initPromiseSync promise, identified by creation index. -/
inductive InitCallRes
  | fastpath
  | syncPromise (pid : Nat)
deriving DecidableEq, Repr

/-- Coordination state of one DisneyLiveDB instance around init
(src lines 265 to 300): the synced flag, the initPromiseSync variable
(recorded by promise id, none for null), the status of every _loadAndInit
promise ever created (its id is its creation index), and the result
handed to each init caller, in call order. -/
structure InitSt where
  synced : Bool
  inflightVar : Option Nat
  promises : List PState
  callers : List InitCallRes
deriving DecidableEq, Repr

/-- Number of _loadAndInit invocations, that is, of initial full
synchronizations started (src line 284 creates the promise; src lines 307
to 319 run load, one batch replication pass, dump). -/
def InitSt.passes (s : InitSt) : Nat := s.promises.length

/-- Events of the init coordination machine. `call` is the synchronous
head of one init() call: the synced guard, the initPromiseSync guard and,
on the cold path, the creation of the _loadAndInit promise (src lines 277
to 284). `settle pid r` is the settlement of that promise together with
the synchronous continuation of the initiating call: on success (r =
none) src lines 287 to 299 clear initPromiseSync, set synced and start
the background live replication; on rejection (r = some e) the await at
src line 286 throws, the continuation is skipped, and initPromiseSync
keeps holding the now rejected promise. -/
inductive IEv
  | call
  | settle (pid : Nat) (r : Option Nat)
deriving DecidableEq, Repr

def istep (s : InitSt) : IEv → InitSt
  | IEv.call =>
      if s.synced then { s with callers := s.callers ++ [InitCallRes.fastpath] }
      else
        match s.inflightVar with
        | some pid =>
            { s with callers := s.callers ++ [InitCallRes.syncPromise pid] }
        | none =>
            { s with
                inflightVar := some s.promises.length,
                promises := s.promises ++ [PState.pending],
                callers :=
                  s.callers ++ [InitCallRes.syncPromise s.promises.length] }
  | IEv.settle pid r =>
      match s.promises[pid]? with
      | some PState.pending =>
          match r with
          | none =>
              { s with
                  promises := s.promises.set pid PState.resolved,
                  inflightVar := none,
                  synced := true }
          | some e =>
              { s with promises := s.promises.set pid (PState.rejected e) }
      | _ => s

/-- State right after the constructor (src lines 265 to 267): not synced,
initPromiseSync null, no sync promise ever created, no callers yet. -/
def initSt0 : InitSt := ⟨false, none, [], []⟩

def irunFrom (s : InitSt) (t : List IEv) : InitSt := t.foldl istep s

def irun (t : List IEv) : InitSt := irunFrom initSt0 t

/-- Reachability invariant of the init machine: at most one sync promise
is ever created (id 0); initPromiseSync can only hold it; synced means it
resolved and the variable was cleared; while it exists the store is
either synced or the variable still holds it; every caller got either the
fast path or that one promise; and fast path callers exist only once
synced. -/
def InitInv (s : InitSt) : Prop :=
  s.promises.length ≤ 1 ∧
  (∀ p, s.inflightVar = some p → p = 0 ∧ s.promises.length = 1) ∧
  (s.synced = true → s.promises[0]? = some PState.resolved ∧
    s.inflightVar = none) ∧
  (s.promises.length = 1 → s.synced = true ∨ s.inflightVar = some 0) ∧
  (∀ r ∈ s.callers,
    r = InitCallRes.fastpath ∨ r = InitCallRes.syncPromise 0) ∧
  (InitCallRes.fastpath ∈ s.callers → s.synced = true)

theorem istep_inv (s : InitSt) (ev : IEv) (h : InitInv s) :
    InitInv (istep s ev) := by
  obtain ⟨h1, h2, h3, h4, h5, h6⟩ := h
  cases ev with
  | call =>
      cases hs : s.synced with
      | true =>
          simp only [istep, hs, if_true]
          refine ⟨h1, h2, ?_, ?_, ?_, ?_⟩
          · intro _; exact h3 hs
          · intro _; left; rfl
          · intro r hr
            rcases List.mem_append.mp hr with hr | hr
            · exact h5 r hr
            · left; simpa using hr
          · intro _; rfl
      | false =>
          cases hiv : s.inflightVar with
          | some pid =>
              obtain ⟨hp0, hl1⟩ := h2 pid hiv
              subst hp0
              simp only [istep, hs, Bool.false_eq_true, if_false, hiv]
              refine ⟨h1, ?_, ?_, ?_, ?_, ?_⟩
              · intro p hp
                simp only [Option.some.injEq] at hp
                exact ⟨hp.symm, hl1⟩
              · intro hc; exact Bool.noConfusion hc
              · intro _; right; rfl
              · intro r hr
                rcases List.mem_append.mp hr with hr | hr
                · exact h5 r hr
                · right; simpa using hr
              · intro hc
                rcases List.mem_append.mp hc with hc | hc
                · have h7 := h6 hc; rw [hs] at h7; exact Bool.noConfusion h7
                · simp at hc
          | none =>
              have hl0 : s.promises.length = 0 := by
                rcases Nat.lt_or_ge s.promises.length 1 with hx | hx
                · omega
                · have hx1 : s.promises.length = 1 := by omega
                  rcases h4 hx1 with hsy | hiv2
                  · rw [hs] at hsy; exact Bool.noConfusion hsy
                  · rw [hiv] at hiv2; cases hiv2
              have hpe : s.promises = [] := List.length_eq_zero.mp hl0
              simp only [istep, hs, Bool.false_eq_true, if_false, hiv, hpe]
              refine ⟨by simp, ?_, ?_, ?_, ?_, ?_⟩
              · intro p hp
                simp only [List.length_nil, Option.some.injEq] at hp
                exact ⟨hp.symm, by simp⟩
              · intro hc; exact Bool.noConfusion hc
              · intro _; right; simp
              · intro r hr
                rcases List.mem_append.mp hr with hr | hr
                · exact h5 r hr
                · right; simpa using hr
              · intro hc
                rcases List.mem_append.mp hc with hc | hc
                · have h7 := h6 hc; rw [hs] at h7; exact Bool.noConfusion h7
                · simp at hc
  | settle pid r =>
      cases hg : s.promises[pid]? with
      | none =>
          simp only [istep, hg]
          exact ⟨h1, h2, h3, h4, h5, h6⟩
      | some st =>
          cases st with
          | pending =>
              have hlt : pid < s.promises.length :=
                (List.getElem?_eq_some.mp hg).1
              have hp0 : pid = 0 := by omega
              subst hp0
              have hl1 : s.promises.length = 1 := by omega
              have hpl : s.promises = [PState.pending] := by
                rcases List.length_eq_one.mp hl1 with ⟨a, ha⟩
                rw [ha] at hg
                simp at hg
                rw [ha, hg]
              have hsy : s.synced = false := by
                cases hc : s.synced with
                | false => rfl
                | true =>
                    have h8 := (h3 hc).1
                    rw [hg] at h8
                    cases h8
              have hiv : s.inflightVar = some 0 := by
                rcases h4 hl1 with hx | hx
                · rw [hsy] at hx; exact Bool.noConfusion hx
                · exact hx
              cases r with
              | none =>
                  simp only [istep, hg, hpl]
                  refine ⟨by simp [List.set], ?_, ?_, ?_, h5, ?_⟩
                  · intro p hp; cases hp
                  · intro _
                    exact ⟨by simp [List.set], rfl⟩
                  · intro _; left; rfl
                  · intro _; rfl
              | some e =>
                  simp only [istep, hg, hpl]
                  refine ⟨by simp [List.set], ?_, ?_, ?_, h5, ?_⟩
                  · intro p hp
                    have hp2 : s.inflightVar = some p := hp
                    rw [hiv] at hp2
                    simp only [Option.some.injEq] at hp2
                    exact ⟨hp2.symm, by simp [List.set]⟩
                  · intro hc; rw [hsy] at hc; exact Bool.noConfusion hc
                  · intro _; right; exact hiv
                  · intro hc
                    have h7 := h6 hc
                    rw [hsy] at h7
                    exact Bool.noConfusion h7
          | resolved =>
              simp only [istep, hg]
              exact ⟨h1, h2, h3, h4, h5, h6⟩
          | rejected e =>
              simp only [istep, hg]
              exact ⟨h1, h2, h3, h4, h5, h6⟩

theorem irunFrom_inv (s : InitSt) (t : List IEv) (h : InitInv s) :
    InitInv (irunFrom s t) := by
  induction t generalizing s with
  | nil => exact h
  | cons ev rest ih => exact ih (istep s ev) (istep_inv s ev h)

theorem irun_inv (t : List IEv) : InitInv (irun t) := by
  refine irunFrom_inv initSt0 t ?_
  refine ⟨by simp [initSt0], ?_, ?_, ?_, ?_, ?_⟩ <;> simp [initSt0]

/-- C2: over the whole lifetime of a store, at most one initial full
synchronization (one batch replication pass, src lines 313 to 315) is
ever started, and every init() caller is handed either the already-synced
fast path or the one shared in-flight promise (promise 0): all concurrent
callers share the outcome of that single in-flight operation. -/
theorem dlDB_C2_init_single_flight (t : List IEv) :
    (irun t).passes ≤ 1 ∧
    ∀ r ∈ (irun t).callers,
      r = InitCallRes.fastpath ∨ r = InitCallRes.syncPromise 0 := by
  have h := irun_inv t
  exact ⟨h.1, h.2.2.2.2.1⟩

theorem dlDB_C2_init_single_flight_witness :
    (irun [IEv.call, IEv.call, IEv.call]).passes ≤ 1 ∧
    (InitCallRes.syncPromise 0 = InitCallRes.fastpath ∨
      InitCallRes.syncPromise 0 = InitCallRes.syncPromise 0) :=
  ⟨(dlDB_C2_init_single_flight [IEv.call, IEv.call, IEv.call]).1,
    (dlDB_C2_init_single_flight [IEv.call, IEv.call, IEv.call]).2
      (InitCallRes.syncPromise 0) (by decide)⟩

/-- Effect of one get() call on the coordination state: get first awaits
init (src lines 403 to 404), so its synchronous head is exactly one init
call event of the machine. -/
def DisneyLiveDB.getInitStep (s : InitSt) : InitSt := istep s IEv.call

/-- C3: once the initial sync promise has rejected with error e, the
store is not synced, initPromiseSync still holds the single rejected
promise, every caller so far was handed that same promise (the failure
surfaced to every waiter), under any further events exactly one sync pass
remains on record (the sync is never internally retried) with the promise
still rejected with the same e, and a subsequent get() call — whose first
await is init() — is handed the same rejected promise again instead of
starting a new sync attempt. -/
theorem dlDB_C3_init_failure_sticky (t : List IEv) (e : Nat)
    (h : (irun t).promises[0]? = some (PState.rejected e)) :
    (irun t).synced = false ∧
    (irun t).inflightVar = some 0 ∧
    (∀ r ∈ (irun t).callers, r = InitCallRes.syncPromise 0) ∧
    (∀ u : List IEv,
      (irunFrom (irun t) u).passes = 1 ∧
      (irunFrom (irun t) u).promises[0]? = some (PState.rejected e)) ∧
    DisneyLiveDB.getInitStep (irun t) =
      { irun t with
          callers := (irun t).callers ++ [InitCallRes.syncPromise 0] } := by
  obtain ⟨h1, h2, h3, h4, h5, h6⟩ := irun_inv t
  have hlt : 0 < (irun t).promises.length := (List.getElem?_eq_some.mp h).1
  have hl1 : (irun t).promises.length = 1 := by omega
  have hpl : (irun t).promises = [PState.rejected e] := by
    rcases List.length_eq_one.mp hl1 with ⟨a, ha⟩
    rw [ha] at h
    simp at h
    rw [ha, h]
  have hsy : (irun t).synced = false := by
    by_contra hc
    have := (h3 (by simpa using hc)).1
    rw [h] at this
    cases this
  have hiv : (irun t).inflightVar = some 0 := by
    rcases h4 hl1 with hx | hx
    · rw [hsy] at hx; cases hx
    · exact hx
  have hnofast : InitCallRes.fastpath ∉ (irun t).callers := by
    intro hc
    have := h6 hc
    rw [hsy] at this
    cases this
  have hstuck : ∀ (u : List IEv) (s : InitSt),
      s.promises = [PState.rejected e] → s.inflightVar = some 0 →
      s.synced = false →
      (irunFrom s u).promises = [PState.rejected e] ∧
      (irunFrom s u).inflightVar = some 0 ∧
      (irunFrom s u).synced = false := by
    intro u
    induction u with
    | nil => intro s hp hi hs; exact ⟨hp, hi, hs⟩
    | cons ev rest ih =>
        intro s hp hi hs
        have hstep : (istep s ev).promises = [PState.rejected e] ∧
            (istep s ev).inflightVar = some 0 ∧
            (istep s ev).synced = false := by
          cases ev with
          | call =>
              simp only [istep, hs, Bool.false_eq_true, if_false, hi]
              simp_all
          | settle pid r =>
              have hg : s.promises[pid]? ≠ some PState.pending := by
                rw [hp]
                cases pid with
                | zero => simp
                | succ n => simp
              cases hgx : s.promises[pid]? with
              | none =>
                  simp only [istep, hgx]
                  exact ⟨hp, hi, hs⟩
              | some st =>
                  cases st with
                  | pending => exact absurd hgx hg
                  | resolved =>
                      simp only [istep, hgx]
                      exact ⟨hp, hi, hs⟩
                  | rejected e2 =>
                      simp only [istep, hgx]
                      exact ⟨hp, hi, hs⟩
        exact ih (istep s ev) hstep.1 hstep.2.1 hstep.2.2
  refine ⟨hsy, hiv, ?_, ?_, ?_⟩
  · intro r hr
    rcases h5 r hr with hx | hx
    · exact absurd (hx ▸ hr) hnofast
    · exact hx
  · intro u
    obtain ⟨hp, _, _⟩ := hstuck u (irun t) hpl hiv hsy
    constructor
    · simp [InitSt.passes, hp]
    · rw [hp]; rfl
  · simp [DisneyLiveDB.getInitStep, istep, hsy, hiv]

theorem dlDB_C3_init_failure_sticky_witness :
    (irun [IEv.call, IEv.settle 0 (some 7)]).synced = false ∧
    (irunFrom (irun [IEv.call, IEv.settle 0 (some 7)]) [IEv.call]).passes
      = 1 :=
  ⟨(dlDB_C3_init_failure_sticky [IEv.call, IEv.settle 0 (some 7)] 7
      (by decide)).1,
    ((dlDB_C3_init_failure_sticky [IEv.call, IEv.settle 0 (some 7)] 7
      (by decide)).2.2.2.1 [IEv.call]).1⟩

/-- Content of an on-disk file in this model: a completely written and
closed dump of store content c (abstracted to a Nat token), or a file
that was created but never completely written. -/
inductive FileContent
  | complete (c : Nat)
  | truncated
deriving DecidableEq, Repr

/-- Lifecycle stage of one dump instance, that is, of one dump() call
that found databaseDumpPendingPromise null and started a write
(src lines 359 to 380): the temp file write (lines 370 to 373) in
flight; the write rejected with e (so line 376 clearing the variable was
skipped); the write done, the variable cleared and the fs.rename of line
379 in flight; the rename settled with result r. -/
inductive DIstat
  | writing
  | writeFailed (e : Nat)
  | renameInFlight
  | finished (r : Option Nat)
deriving DecidableEq, Repr

/-- Status of the temp write promise of a dump instance: this is the
promise stored in databaseDumpPendingPromise (src line 371) and returned
directly to joining dump() callers (src lines 360 to 362). -/
def instWriteOutcome : DIstat → PState
  | DIstat.writing => PState.pending
  | DIstat.writeFailed e => PState.rejected e
  | DIstat.renameInFlight => PState.resolved
  | DIstat.finished _ => PState.resolved

/-- Status of the promise of the dump() call that started the instance:
it settles only once the rename of src line 379 has (or, on a write
rejection, when the await of line 375 throws). -/
def instDumpOutcome : DIstat → PState
  | DIstat.writing => PState.pending
  | DIstat.writeFailed e => PState.rejected e
  | DIstat.renameInFlight => PState.pending
  | DIstat.finished none => PState.resolved
  | DIstat.finished (some e) => PState.rejected e

/-- What one dump() call got: it started dump instance i, or it joined
the in-flight write of instance i (receiving that write promise). -/
inductive DumpCallRes
  | starter (i : Nat)
  | joiner (i : Nat)
deriving DecidableEq, Repr

/-- The dump instance a dump() call is attached to. -/
def callerInst : DumpCallRes → Nat
  | DumpCallRes.starter i => i
  | DumpCallRes.joiner i => i

/-- Snapshot side of the DisneyLiveDB state: the
databaseDumpPendingPromise variable (recorded as the id of the dump
instance whose write promise it holds, none for null), all dump
instances in creation order, the result handed to each dump() call in
call order, the canonical snapshot file (getDumpFilename()), the temp
file (getDumpFilename with postfix _new), and the current local store
content (a Nat token; the machine leaves it fixed). -/
structure DumpSt where
  pendingVar : Option Nat
  insts : List DIstat
  callers : List DumpCallRes
  canonical : Option FileContent
  temp : Option FileContent
  localContent : Nat
deriving DecidableEq, Repr

/-- Events of the dump machine. `call` is the synchronous head of one
dump() call (src lines 360 to 371): return the stored pending promise if
there is one, else create the temp write stream (truncating the temp
file) and store the new write promise. `wdone i r` is the settlement of
the write of instance i together with the continuation of the starting
call: on success lines 376 to 379 clear the variable and start the
rename; on rejection the await of line 375 throws and the variable is
left holding the rejected promise. `rdone i r` is the settlement of the
rename of instance i, which settles the starting call. -/
inductive DEv
  | call
  | wdone (i : Nat) (r : Option Nat)
  | rdone (i : Nat) (r : Option Nat)
deriving DecidableEq, Repr

def dstep (s : DumpSt) : DEv → DumpSt
  | DEv.call =>
      match s.pendingVar with
      | some i => { s with callers := s.callers ++ [DumpCallRes.joiner i] }
      | none =>
          { s with
              pendingVar := some s.insts.length,
              insts := s.insts ++ [DIstat.writing],
              callers := s.callers ++ [DumpCallRes.starter s.insts.length],
              temp := some FileContent.truncated }
  | DEv.wdone i r =>
      match s.insts[i]? with
      | some DIstat.writing =>
          match r with
          | none =>
              { s with
                  insts := s.insts.set i DIstat.renameInFlight,
                  pendingVar := none,
                  temp := some (FileContent.complete s.localContent) }
          | some e =>
              { s with insts := s.insts.set i (DIstat.writeFailed e) }
      | _ => s
  | DEv.rdone i r =>
      match s.insts[i]? with
      | some DIstat.renameInFlight =>
          match r with
          | none =>
              { s with
                  insts := s.insts.set i (DIstat.finished none),
                  canonical := s.temp,
                  temp := none }
          | some e =>
              { s with insts := s.insts.set i (DIstat.finished (some e)) }
      | _ => s

/-- Snapshot state right after the constructor: no pending dump, no
instances, canonical file as found on disk, no temp file. -/
def dumpSt0 (c0 : Option FileContent) (loc : Nat) : DumpSt :=
  ⟨none, [], [], c0, none, loc⟩

def drunFrom (s : DumpSt) (t : List DEv) : DumpSt := t.foldl dstep s

def drun (c0 : Option FileContent) (loc : Nat) (t : List DEv) : DumpSt :=
  drunFrom (dumpSt0 c0 loc) t

/-- Reachability invariant of the dump machine: the pending variable, if
set, holds an instance that is writing or write-failed; every writing
instance is the pending one (so at most one write is in flight); every
write-failed instance is the pending one (the variable is never cleared
on failure); every caller is attached to an existing instance. -/
def DumpInv (s : DumpSt) : Prop :=
  (∀ i, s.pendingVar = some i →
    s.insts[i]? = some DIstat.writing ∨
      ∃ e, s.insts[i]? = some (DIstat.writeFailed e)) ∧
  (∀ j, s.insts[j]? = some DIstat.writing → s.pendingVar = some j) ∧
  (∀ j e, s.insts[j]? = some (DIstat.writeFailed e) →
    s.pendingVar = some j) ∧
  (∀ r ∈ s.callers, callerInst r < s.insts.length)

theorem dstep_inv (s : DumpSt) (ev : DEv) (h : DumpInv s) :
    DumpInv (dstep s ev) := by
  obtain ⟨h1, h2, h3, h4⟩ := h
  cases ev with
  | call =>
      cases hpv : s.pendingVar with
      | some i =>
          simp only [dstep, hpv]
          refine ⟨?_, ?_, ?_, ?_⟩
          · intro k hk
            simp only [Option.some.injEq] at hk
            subst hk
            exact h1 i hpv
          · intro j hj
            have h9 := h2 j hj
            rw [hpv] at h9
            exact h9
          · intro j e hj
            have h9 := h3 j e hj
            rw [hpv] at h9
            exact h9
          · intro r hr
            rcases List.mem_append.mp hr with hr | hr
            · exact h4 r hr
            · have hri : r = DumpCallRes.joiner i := by simpa using hr
              subst hri
              rcases h1 i hpv with hx | ⟨e, hx⟩ <;>
                exact (List.getElem?_eq_some.mp hx).1
      | none =>
          simp only [dstep, hpv]
          have hnw : ∀ j : Nat, s.insts[j]? ≠ some DIstat.writing := by
            intro j hj
            rw [h2 j hj] at hpv
            cases hpv
          have hnf : ∀ j e : Nat, s.insts[j]? ≠ some (DIstat.writeFailed e) := by
            intro j e hj
            rw [h3 j e hj] at hpv
            cases hpv
          refine ⟨?_, ?_, ?_, ?_⟩
          · intro k hk
            simp only [Option.some.injEq] at hk
            subst hk
            left
            exact List.getElem?_concat_length s.insts DIstat.writing
          · intro j hj
            by_cases hjl : j < s.insts.length
            · rw [List.getElem?_append_left hjl] at hj
              exact absurd hj (hnw j)
            · have hje : j = s.insts.length := by
                by_contra hne
                have hge : s.insts.length + 1 ≤ j := by omega
                rw [List.getElem?_eq_none (by simpa using hge)] at hj
                cases hj
              rw [hje]
          · intro j e hj
            by_cases hjl : j < s.insts.length
            · rw [List.getElem?_append_left hjl] at hj
              exact absurd hj (hnf j e)
            · by_cases hje : j = s.insts.length
              · rw [hje, List.getElem?_concat_length] at hj
                cases hj
              · have hge : s.insts.length + 1 ≤ j := by omega
                rw [List.getElem?_eq_none (by simpa using hge)] at hj
                cases hj
          · intro r hr
            rcases List.mem_append.mp hr with hr | hr
            · have := h4 r hr
              simp only [List.length_append, List.length_cons,
                List.length_nil]
              omega
            · have hri : r = DumpCallRes.starter s.insts.length := by
                simpa using hr
              subst hri
              simp [callerInst]
  | wdone i r =>
      cases hg : s.insts[i]? with
      | none => simpa only [dstep, hg] using ⟨h1, h2, h3, h4⟩
      | some st =>
          have hil : i < s.insts.length := (List.getElem?_eq_some.mp hg).1
          cases st with
          | writing =>
              have hpv : s.pendingVar = some i := h2 i hg
              cases r with
              | none =>
                  simp only [dstep, hg]
                  refine ⟨?_, ?_, ?_, ?_⟩
                  · intro k hk; cases hk
                  · intro j hj
                    by_cases hji : i = j
                    · subst hji
                      rw [List.getElem?_set_eq hil] at hj
                      cases hj
                    · rw [List.getElem?_set_ne hji] at hj
                      have := h2 j hj
                      rw [hpv] at this
                      simp only [Option.some.injEq] at this
                      exact absurd this hji
                  · intro j e hj
                    by_cases hji : i = j
                    · subst hji
                      rw [List.getElem?_set_eq hil] at hj
                      cases hj
                    · rw [List.getElem?_set_ne hji] at hj
                      have := h3 j e hj
                      rw [hpv] at this
                      simp only [Option.some.injEq] at this
                      exact absurd this hji
                  · intro rr hrr
                    have := h4 rr hrr
                    simpa using this
              | some e =>
                  simp only [dstep, hg]
                  refine ⟨?_, ?_, ?_, ?_⟩
                  · intro k hk
                    rw [hpv] at hk
                    simp only [Option.some.injEq] at hk
                    subst hk
                    right
                    exact ⟨e, List.getElem?_set_eq hil⟩
                  · intro j hj
                    by_cases hji : i = j
                    · subst hji
                      rw [List.getElem?_set_eq hil] at hj
                      cases hj
                    · rw [List.getElem?_set_ne hji] at hj
                      have := h2 j hj
                      rw [hpv] at this
                      simp only [Option.some.injEq] at this
                      exact absurd this hji
                  · intro j e2 hj
                    by_cases hji : i = j
                    · subst hji
                      exact hpv
                    · rw [List.getElem?_set_ne hji] at hj
                      have := h3 j e2 hj
                      rw [hpv] at this
                      simp only [Option.some.injEq] at this
                      exact absurd this hji
                  · intro rr hrr
                    have := h4 rr hrr
                    simpa using this
          | writeFailed e => simpa only [dstep, hg] using ⟨h1, h2, h3, h4⟩
          | renameInFlight => simpa only [dstep, hg] using ⟨h1, h2, h3, h4⟩
          | finished rr => simpa only [dstep, hg] using ⟨h1, h2, h3, h4⟩
  | rdone i r =>
      cases hg : s.insts[i]? with
      | none => simpa only [dstep, hg] using ⟨h1, h2, h3, h4⟩
      | some st =>
          have hil : i < s.insts.length := (List.getElem?_eq_some.mp hg).1
          cases st with
          | renameInFlight =>
              have hkey : ∀ (st2 : DIstat), st2 ≠ DIstat.writing →
                  (∀ e2, st2 ≠ DIstat.writeFailed e2) →
                  ∀ (s2 : DumpSt), s2.pendingVar = s.pendingVar →
                  s2.insts = s.insts.set i st2 → s2.callers = s.callers →
                  DumpInv s2 := by
                intro st2 hw hf s2 hpv2 hin2 hca2
                have hpi : s.pendingVar ≠ some i := by
                  intro hc
                  rcases h1 i hc with hx | ⟨e2, hx⟩ <;> rw [hg] at hx <;>
                    cases hx
                refine ⟨?_, ?_, ?_, ?_⟩
                · intro k hk
                  rw [hpv2] at hk
                  have hki : ¬ i = k := fun hik => hpi (hik ▸ hk)
                  rw [hin2, List.getElem?_set_ne hki]
                  exact h1 k hk
                · intro j hj
                  rw [hin2] at hj
                  by_cases hji : i = j
                  · subst hji
                    rw [List.getElem?_set_eq hil] at hj
                    injection hj with hj2
                    exact absurd hj2 hw
                  · rw [List.getElem?_set_ne hji] at hj
                    rw [hpv2]
                    exact h2 j hj
                · intro j e2 hj
                  rw [hin2] at hj
                  by_cases hji : i = j
                  · subst hji
                    rw [List.getElem?_set_eq hil] at hj
                    injection hj with hj2
                    exact absurd hj2 (hf e2)
                  · rw [List.getElem?_set_ne hji] at hj
                    rw [hpv2]
                    exact h3 j e2 hj
                · intro rr hrr
                  rw [hca2] at hrr
                  have hlt := h4 rr hrr
                  rw [hin2, List.length_set]
                  exact hlt
              cases r with
              | none =>
                  simp only [dstep, hg]
                  exact hkey (DIstat.finished none) (by intro hc; cases hc)
                    (by intro e2 hc; cases hc) _ rfl rfl rfl
              | some e =>
                  simp only [dstep, hg]
                  exact hkey (DIstat.finished (some e))
                    (by intro hc; cases hc)
                    (by intro e2 hc; cases hc) _ rfl rfl rfl
          | writing => simpa only [dstep, hg] using ⟨h1, h2, h3, h4⟩
          | writeFailed e => simpa only [dstep, hg] using ⟨h1, h2, h3, h4⟩
          | finished rr => simpa only [dstep, hg] using ⟨h1, h2, h3, h4⟩

theorem drunFrom_inv (s : DumpSt) (t : List DEv) (h : DumpInv s) :
    DumpInv (drunFrom s t) := by
  induction t generalizing s with
  | nil => exact h
  | cons ev rest ih => exact ih (dstep s ev) (dstep_inv s ev h)

theorem drun_inv (c0 : Option FileContent) (loc : Nat) (t : List DEv) :
    DumpInv (drun c0 loc t) := by
  refine drunFrom_inv (dumpSt0 c0 loc) t ?_
  refine ⟨?_, ?_, ?_, ?_⟩ <;> simp [dumpSt0]

/-- True when the event is the successful settlement of a temp write. -/
def evIsWriteSuccess : DEv → Bool
  | DEv.wdone _ none => true
  | _ => false

/-- No temp write in the trace ever succeeds: in particular, the write of
every dump attempt in the trace was interrupted. -/
def noWriteSuccess (t : List DEv) : Prop :=
  ∀ ev ∈ t, evIsWriteSuccess ev = false

theorem dstep_c4_aux (s : DumpSt) (ev : DEv) (c0 : Option FileContent)
    (hev : evIsWriteSuccess ev = false)
    (hc : s.canonical = c0)
    (hst : ∀ (i : Nat) st, s.insts[i]? = some st →
      st = DIstat.writing ∨ ∃ e, st = DIstat.writeFailed e)
    (htmp : s.insts ≠ [] → s.temp = some FileContent.truncated) :
    (dstep s ev).canonical = c0 ∧
    (∀ (i : Nat) st, (dstep s ev).insts[i]? = some st →
      st = DIstat.writing ∨ ∃ e, st = DIstat.writeFailed e) ∧
    ((dstep s ev).insts ≠ [] →
      (dstep s ev).temp = some FileContent.truncated) := by
  cases ev with
  | call =>
      cases hpv : s.pendingVar with
      | some i =>
          simp only [dstep, hpv]
          exact ⟨hc, hst, htmp⟩
      | none =>
          simp only [dstep, hpv]
          refine ⟨hc, ?_, ?_⟩
          · intro i st hi
            by_cases hil : i < s.insts.length
            · rw [List.getElem?_append_left hil] at hi
              exact hst i st hi
            · by_cases hie : i = s.insts.length
              · rw [hie, List.getElem?_concat_length] at hi
                injection hi with hi2
                left; exact hi2.symm
              · have hge : s.insts.length + 1 ≤ i := by omega
                rw [List.getElem?_eq_none (by simpa using hge)] at hi
                cases hi
          · intro _; trivial
  | wdone i r =>
      cases hg : s.insts[i]? with
      | none =>
          simp only [dstep, hg]
          exact ⟨hc, hst, htmp⟩
      | some st =>
          have hil : i < s.insts.length := (List.getElem?_eq_some.mp hg).1
          have hne : s.insts ≠ [] := by
            intro hemp
            rw [hemp] at hil
            simp at hil
          cases st with
          | writing =>
              cases r with
              | none =>
                  exfalso
                  simp [evIsWriteSuccess] at hev
              | some e =>
                  simp only [dstep, hg]
                  refine ⟨hc, ?_, ?_⟩
                  · intro j st2 hj
                    by_cases hji : i = j
                    · subst hji
                      rw [List.getElem?_set_self hil] at hj
                      injection hj with hj2
                      right; exact ⟨e, hj2.symm⟩
                    · rw [List.getElem?_set_ne hji] at hj
                      exact hst j st2 hj
                  · intro _
                    exact htmp hne
          | writeFailed e =>
              simp only [dstep, hg]
              exact ⟨hc, hst, htmp⟩
          | renameInFlight =>
              rcases hst i DIstat.renameInFlight hg with hx | ⟨e, hx⟩ <;>
                cases hx
          | finished rr =>
              rcases hst i (DIstat.finished rr) hg with hx | ⟨e, hx⟩ <;>
                cases hx
  | rdone i r =>
      cases hg : s.insts[i]? with
      | none =>
          simp only [dstep, hg]
          exact ⟨hc, hst, htmp⟩
      | some st =>
          cases st with
          | writing =>
              simp only [dstep, hg]
              exact ⟨hc, hst, htmp⟩
          | writeFailed e =>
              simp only [dstep, hg]
              exact ⟨hc, hst, htmp⟩
          | renameInFlight =>
              rcases hst i DIstat.renameInFlight hg with hx | ⟨e, hx⟩ <;>
                cases hx
          | finished rr =>
              rcases hst i (DIstat.finished rr) hg with hx | ⟨e, hx⟩ <;>
                cases hx

theorem drunFrom_c4_aux (t : List DEv) (c0 : Option FileContent) :
    ∀ (s : DumpSt), (∀ ev ∈ t, evIsWriteSuccess ev = false) →
    s.canonical = c0 →
    (∀ (i : Nat) st, s.insts[i]? = some st →
      st = DIstat.writing ∨ ∃ e, st = DIstat.writeFailed e) →
    (s.insts ≠ [] → s.temp = some FileContent.truncated) →
    (drunFrom s t).canonical = c0 ∧
    (∀ (i : Nat) st, (drunFrom s t).insts[i]? = some st →
      st = DIstat.writing ∨ ∃ e, st = DIstat.writeFailed e) ∧
    ((drunFrom s t).insts ≠ [] →
      (drunFrom s t).temp = some FileContent.truncated) := by
  induction t with
  | nil =>
      intro s _ hc hst htmp
      exact ⟨hc, hst, htmp⟩
  | cons ev rest ih =>
      intro s hall hc hst htmp
      have hev : evIsWriteSuccess ev = false := hall ev (by simp)
      obtain ⟨hc2, hst2, htmp2⟩ := dstep_c4_aux s ev c0 hev hc hst htmp
      exact ih (dstep s ev) (fun e2 he2 => hall e2 (by simp [he2])) hc2
        hst2 htmp2

/-- C4: in a run in which no temp file write ever succeeds — in
particular when the write behind a dump() call is interrupted — the
canonical snapshot file stays byte-identical to its initial content: no
dump instance ever reaches the rename stage (the rename of src line 379
runs only after the write of lines 370 to 375 has fully completed), and
once some attempt has failed, the only residue is the orphaned truncated
temp file. -/
theorem dlDB_C4_canonical_untouched (c0 : Option FileContent) (loc : Nat)
    (t : List DEv) (h : noWriteSuccess t) :
    (drun c0 loc t).canonical = c0 ∧
    (∀ i : Nat, (drun c0 loc t).insts[i]? ≠ some DIstat.renameInFlight ∧
      ∀ r, (drun c0 loc t).insts[i]? ≠ some (DIstat.finished r)) ∧
    (∀ i e : Nat, (drun c0 loc t).insts[i]? = some (DIstat.writeFailed e) →
      (drun c0 loc t).temp = some FileContent.truncated) := by
  obtain ⟨hc, hst, htmp⟩ := drunFrom_c4_aux t c0 (dumpSt0 c0 loc) h rfl
    (by intro i st hi; simp [dumpSt0] at hi)
    (by intro hx; simp [dumpSt0] at hx)
  refine ⟨hc, ?_, ?_⟩
  · intro i
    constructor
    · intro hg
      rcases hst i DIstat.renameInFlight hg with hx | ⟨e, hx⟩ <;> cases hx
    · intro r hg
      rcases hst i (DIstat.finished r) hg with hx | ⟨e, hx⟩ <;> cases hx
  · intro i e hg
    have hne : (drun c0 loc t).insts ≠ [] := by
      intro hemp
      rw [hemp] at hg
      cases i <;> simp at hg
    exact htmp hne

theorem dlDB_C4_canonical_untouched_witness :
    (drun (some (FileContent.complete 9)) 7
        [DEv.call, DEv.wdone 0 (some 5)]).canonical =
      some (FileContent.complete 9) ∧
    (drun (some (FileContent.complete 9)) 7
        [DEv.call, DEv.wdone 0 (some 5)]).temp =
      some FileContent.truncated :=
  ⟨(dlDB_C4_canonical_untouched (some (FileContent.complete 9)) 7
      [DEv.call, DEv.wdone 0 (some 5)]
      (by unfold noWriteSuccess; decide)).1,
    (dlDB_C4_canonical_untouched (some (FileContent.complete 9)) 7
      [DEv.call, DEv.wdone 0 (some 5)]
      (by unfold noWriteSuccess; decide)).2.2 0 5 (by decide)⟩

theorem dstep_c9_aux (s : DumpSt) (ev : DEv) (i e : Nat)
    (hinv : DumpInv s)
    (hpv : s.pendingVar = some i)
    (hfi : s.insts[i]? = some (DIstat.writeFailed e)) :
    (dstep s ev).pendingVar = some i ∧
    (dstep s ev).insts.length = s.insts.length ∧
    (dstep s ev).insts[i]? = some (DIstat.writeFailed e) ∧
    ((dstep s ev).callers = s.callers ∨
      (dstep s ev).callers = s.callers ++ [DumpCallRes.joiner i]) := by
  obtain ⟨h1, h2, h3, h4⟩ := hinv
  cases ev with
  | call => simp [dstep, hpv, hfi]
  | wdone j r =>
      cases hgj : s.insts[j]? with
      | none => simp [dstep, hgj, hpv, hfi]
      | some st =>
          cases st with
          | writing =>
              exfalso
              have hji := h2 j hgj
              rw [hpv] at hji
              simp only [Option.some.injEq] at hji
              rw [← hji] at hgj
              rw [hgj] at hfi
              cases hfi
          | writeFailed e2 => simp [dstep, hgj, hpv, hfi]
          | renameInFlight =>
              have hji : ¬ j = i := by
                intro hji
                rw [hji, hfi] at hgj
                cases hgj
              cases r with
              | none =>
                  simp [dstep, hgj, hpv, hfi, List.getElem?_set_ne hji]
              | some e2 =>
                  simp [dstep, hgj, hpv, hfi, List.getElem?_set_ne hji]
          | finished rr => simp [dstep, hgj, hpv, hfi]
  | rdone j r =>
      cases hgj : s.insts[j]? with
      | none => simp [dstep, hgj, hpv, hfi]
      | some st =>
          cases st with
          | writing => simp [dstep, hgj, hpv, hfi]
          | writeFailed e2 => simp [dstep, hgj, hpv, hfi]
          | renameInFlight =>
              have hji : ¬ j = i := by
                intro hji
                rw [hji, hfi] at hgj
                cases hgj
              cases r with
              | none =>
                  simp [dstep, hgj, hpv, hfi, List.getElem?_set_ne hji]
              | some e2 =>
                  simp [dstep, hgj, hpv, hfi, List.getElem?_set_ne hji]
          | finished rr => simp [dstep, hgj, hpv, hfi]

theorem drunFrom_c9_aux (i e : Nat) (u : List DEv) :
    ∀ (s : DumpSt), DumpInv s → s.pendingVar = some i →
    s.insts[i]? = some (DIstat.writeFailed e) →
    (drunFrom s u).pendingVar = some i ∧
    (drunFrom s u).insts.length = s.insts.length ∧
    (drunFrom s u).insts[i]? = some (DIstat.writeFailed e) ∧
    ∃ tail, (drunFrom s u).callers = s.callers ++ tail ∧
      ∀ r ∈ tail, r = DumpCallRes.joiner i := by
  induction u with
  | nil =>
      intro s _ hpv hfi
      refine ⟨hpv, rfl, hfi, [], ?_, by simp⟩
      simp [drunFrom]
  | cons ev rest ih =>
      intro s hinv hpv hfi
      obtain ⟨hpv2, hlen2, hfi2, hcal2⟩ := dstep_c9_aux s ev i e hinv hpv hfi
      obtain ⟨hpv3, hlen3, hfi3, tail, htail, hjoin⟩ :=
        ih (dstep s ev) (dstep_inv s ev hinv) hpv2 hfi2
      have hcons : drunFrom s (ev :: rest) = drunFrom (dstep s ev) rest := rfl
      rw [hcons]
      refine ⟨hpv3, by rw [hlen3, hlen2], hfi3, ?_⟩
      rcases hcal2 with hc | hc
      · exact ⟨tail, by rw [htail, hc], hjoin⟩
      · refine ⟨DumpCallRes.joiner i :: tail, ?_, ?_⟩
        · rw [htail, hc]
          simp
        · intro r hr
          rcases List.mem_cons.mp hr with hr | hr
          · exact hr
          · exact hjoin r hr

/-- C9: once the write behind a dump() call has rejected, the stored
pending dump handle is never cleared (the clearing on src line 376 is
skipped when the await on line 375 throws): under every continuation of
the run the handle still references that same write promise, now rejected
with the same error, so every later dump() call — including the ones the
checkpoint loop makes — joins it and is handed the same rejected promise,
and no further snapshot write is ever started for the rest of the store
lifetime (the instance count never grows again). -/
theorem dlDB_C9_failed_dump_sticky (c0 : Option FileContent) (loc : Nat)
    (t : List DEv) (i e : Nat)
    (h : (drun c0 loc t).insts[i]? = some (DIstat.writeFailed e)) :
    ∀ u : List DEv,
      (drunFrom (drun c0 loc t) u).pendingVar = some i ∧
      (drunFrom (drun c0 loc t) u).insts.length =
        (drun c0 loc t).insts.length ∧
      (drunFrom (drun c0 loc t) u).insts[i]? =
        some (DIstat.writeFailed e) ∧
      instWriteOutcome (DIstat.writeFailed e) = PState.rejected e ∧
      ∃ tail, (drunFrom (drun c0 loc t) u).callers =
          (drun c0 loc t).callers ++ tail ∧
        ∀ r ∈ tail, r = DumpCallRes.joiner i := by
  intro u
  have hinv := drun_inv c0 loc t
  have hpv : (drun c0 loc t).pendingVar = some i := hinv.2.2.1 i e h
  obtain ⟨hpv2, hlen2, hfi2, htail⟩ :=
    drunFrom_c9_aux i e u (drun c0 loc t) hinv hpv h
  exact ⟨hpv2, hlen2, hfi2, rfl, htail⟩

theorem dlDB_C9_failed_dump_sticky_witness :
    (drunFrom (drun none 3 [DEv.call, DEv.wdone 0 (some 5)])
        [DEv.call]).pendingVar = some 0 ∧
    (drunFrom (drun none 3 [DEv.call, DEv.wdone 0 (some 5)])
        [DEv.call]).insts.length =
      (drun none 3 [DEv.call, DEv.wdone 0 (some 5)]).insts.length :=
  ⟨(dlDB_C9_failed_dump_sticky none 3 [DEv.call, DEv.wdone 0 (some 5)]
      0 5 (by decide) [DEv.call]).1,
    (dlDB_C9_failed_dump_sticky none 3 [DEv.call, DEv.wdone 0 (some 5)]
      0 5 (by decide) [DEv.call]).2.1⟩

/-- C10: a dump() caller that joined the in-flight write holds the write
promise itself (src lines 360 to 362), not the promise of the starting
call. When the temp write of instance i completes, the instance moves to
the rename stage: the write promise — what every joiner holds — is
resolved at that very step, while the promise of the starting dump() call
is still pending (only the starter awaits and performs the rename of src
line 379), and the canonical snapshot file is not yet updated, so a
joining caller can observe its dump() promise resolved while the
canonical file does not yet reflect the dump. -/
theorem dlDB_C10_join_resolves_before_rename (c0 : Option FileContent)
    (loc : Nat) (t : List DEv) (i : Nat)
    (h : (drun c0 loc t).insts[i]? = some DIstat.writing) :
    (dstep (drun c0 loc t) (DEv.wdone i none)).insts[i]? =
      some DIstat.renameInFlight ∧
    instWriteOutcome DIstat.renameInFlight = PState.resolved ∧
    instDumpOutcome DIstat.renameInFlight = PState.pending ∧
    (dstep (drun c0 loc t) (DEv.wdone i none)).canonical =
      (drun c0 loc t).canonical ∧
    (dstep (drun c0 loc t) (DEv.wdone i none)).callers =
      (drun c0 loc t).callers := by
  have hil : i < (drun c0 loc t).insts.length :=
    (List.getElem?_eq_some.mp h).1
  refine ⟨?_, rfl, rfl, ?_, ?_⟩
  · simp only [dstep, h]
    exact List.getElem?_set_self hil
  · simp [dstep, h]
  · simp [dstep, h]

theorem dlDB_C10_join_resolves_before_rename_witness :
    (dstep (drun none 7 [DEv.call, DEv.call]) (DEv.wdone 0 none)).insts[0]? =
      some DIstat.renameInFlight ∧
    (dstep (drun none 7 [DEv.call, DEv.call]) (DEv.wdone 0 none)).canonical =
      (drun none 7 [DEv.call, DEv.call]).canonical :=
  ⟨(dlDB_C10_join_resolves_before_rename none 7 [DEv.call, DEv.call] 0
      (by decide)).1,
    (dlDB_C10_join_resolves_before_rename none 7 [DEv.call, DEv.call] 0
      (by decide)).2.2.2.1⟩

/-- Status of the promise returned by the k-th dump() call of the run:
the full dump promise for a starter, the write promise for a joiner. -/
def callerDumpStatus (s : DumpSt) (k : Nat) : Option PState :=
  match s.callers[k]? with
  | none => none
  | some (DumpCallRes.starter i) => (s.insts[i]?).map instDumpOutcome
  | some (DumpCallRes.joiner i) => (s.insts[i]?).map instWriteOutcome

/-- The events of a trace that happen strictly before its k-th call
event (counting calls from zero). -/
def beforeCall : List DEv → Nat → List DEv
  | [], _ => []
  | DEv.call :: _, 0 => []
  | DEv.call :: rest, Nat.succ k => DEv.call :: beforeCall rest k
  | ev :: rest, k => ev :: beforeCall rest k

/-- The C6 claim as frozen, read over the dump machine: whenever the b-th
dump() call of a run is issued while the a-th dump() call is still
pending (concurrent calls), the two calls are attached to the same dump
operation — so among concurrent callers exactly one write is performed
and its outcome is shared. -/
def dumpSingleFlightStated : Prop :=
  ∀ (c0 : Option FileContent) (loc : Nat) (t : List DEv) (a b : Nat),
    a < b →
    callerDumpStatus (drun c0 loc (beforeCall t b)) a =
      some PState.pending →
    ∀ ra rb, (drun c0 loc t).callers[a]? = some ra →
      (drun c0 loc t).callers[b]? = some rb →
      callerInst ra = callerInst rb

/-- C6 counterexample: in the run call, write success, call — the second
dump() call is issued while the first dump() call is still pending (its
starter is awaiting the rename of src line 379, and the pending handle
was already cleared on line 376), yet the second call starts a second
write instead of joining the first operation: two concurrent dump()
calls, two snapshot writes, two distinct operations with separate
outcomes. -/
theorem dlDB_C6_counterexample : ¬ dumpSingleFlightStated := by
  intro hc
  have h2 := hc none 3 [DEv.call, DEv.wdone 0 none, DEv.call] 0 1
    (by decide) (by decide)
    (DumpCallRes.starter 0) (DumpCallRes.starter 1)
    (by decide) (by decide)
  simp [callerInst] at h2

/-- C6 amended: dump() calls issued while the temp file write is in
flight do join that single write and share its outcome, and at most one
temp file write is in flight at any time; however, a dump() call issued
after the write has settled but before the starting call finished its
rename starts a new write, so two overlapping dump() calls can perform
two writes (see the counterexample). Stated here: in every reachable
state, any two writing instances coincide, and a call made while the
pending handle holds the write of instance i is appended as a joiner of
i, sharing the promise of that one write. -/
theorem dlDB_C6_single_flight_amended (c0 : Option FileContent)
    (loc : Nat) (t : List DEv) :
    (∀ i j : Nat, (drun c0 loc t).insts[i]? = some DIstat.writing →
      (drun c0 loc t).insts[j]? = some DIstat.writing → i = j) ∧
    (∀ i : Nat, (drun c0 loc t).pendingVar = some i →
      dstep (drun c0 loc t) DEv.call =
        { drun c0 loc t with
            callers := (drun c0 loc t).callers ++
              [DumpCallRes.joiner i] }) := by
  have hinv := drun_inv c0 loc t
  constructor
  · intro i j hi hj
    have hpi := hinv.2.1 i hi
    have hpj := hinv.2.1 j hj
    rw [hpi] at hpj
    simp only [Option.some.injEq] at hpj
    exact hpj
  · intro i hi
    simp [dstep, hi]

theorem dlDB_C6_single_flight_amended_witness :
    dstep (drun none 3 [DEv.call]) DEv.call =
      { drun none 3 [DEv.call] with
          callers := (drun none 3 [DEv.call]).callers ++
            [DumpCallRes.joiner 0] } :=
  (dlDB_C6_single_flight_amended none 3 [DEv.call]).2 0 (by decide)

/-- Operations the first init() performs, in the order the embedding
records them. -/
inductive InitOp
  | loadSnapshot
  | batchReplicate
  | dumpSnapshot
  | markSynced
  | startLive
deriving DecidableEq, Repr

/-- Environment of one isolated first init() run: whether the snapshot
file exists on disk (the fs.access probe of src line 341), and how the
load, the batch replication and the snapshot dump settle (none is
success). liveFails records whether the background live replication
session later fails; init never consults it. -/
structure InitEnv where
  snapshotPresent : Bool
  loadResult : Option Nat
  replicateResult : Option Nat
  dumpResult : Option Nat
  liveFails : Bool
deriving DecidableEq, Repr

/-- Batch replication followed by the snapshot dump (src lines 312 to
318), after the load stage recorded in done: the first rejection aborts
the sequence and becomes the outcome. -/
def replicateThenDump (done : List InitOp) (env : InitEnv) :
    List InitOp × Option Nat :=
  match env.replicateResult with
  | some e => (done ++ [InitOp.batchReplicate], some e)
  | none =>
      match env.dumpResult with
      | some e => (done ++ [InitOp.batchReplicate, InitOp.dumpSnapshot],
          some e)
      | none => (done ++ [InitOp.batchReplicate, InitOp.dumpSnapshot],
          none)

/-- One run of _loadAndInit (src lines 307 to 319): restore from disk
only when the snapshot file exists (load of lines 336 to 353 returns
early otherwise), then one batch replication, then dump. -/
def loadAndInitRun (env : InitEnv) : List InitOp × Option Nat :=
  if env.snapshotPresent then
    match env.loadResult with
    | some e => ([InitOp.loadSnapshot], some e)
    | none => replicateThenDump [InitOp.loadSnapshot] env
  else replicateThenDump [] env

/-- One init() call run to completion in isolation (src lines 276 to
300): nothing happens when this.synced is already set; otherwise
_loadAndInit runs, and on its success init marks the store synced and
only then starts the background live replication session — fire and
forget, so the liveFails flag of the environment never reaches the
outcome of init. -/
def initRun (synced : Bool) (env : InitEnv) : List InitOp × Option Nat :=
  if synced then ([], none)
  else
    match loadAndInitRun env with
    | (ops, some e) => (ops, some e)
    | (ops, none) => (ops ++ [InitOp.markSynced, InitOp.startLive], none)

/-- C7: init() is an idempotent no-op when the store is already synced;
otherwise, when the stages succeed, it performs in this exact order: load
the snapshot from disk if present, then batch-replicate remote changes
into the local store, then write a fresh snapshot, then mark the store
synced, and only then start the background live replication session —
whose failures (liveFails) never change the outcome of init. -/
theorem dlDB_C7_init_order (env : InitEnv)
    (hl : env.loadResult = none) (hr : env.replicateResult = none)
    (hd : env.dumpResult = none) :
    initRun true env = ([], none) ∧
    initRun false env =
      ((if env.snapshotPresent then [InitOp.loadSnapshot] else []) ++
        [InitOp.batchReplicate, InitOp.dumpSnapshot, InitOp.markSynced,
          InitOp.startLive], none) ∧
    (∀ b : Bool, initRun false { env with liveFails := b } =
      initRun false env) := by
  obtain ⟨sp, lr, rr, dr, lf⟩ := env
  simp only at hl hr hd
  subst hl
  subst hr
  subst hd
  cases sp with
  | true =>
      refine ⟨rfl, ?_, ?_⟩
      · simp [initRun, loadAndInitRun, replicateThenDump]
      · intro b; rfl
  | false =>
      refine ⟨rfl, ?_, ?_⟩
      · simp [initRun, loadAndInitRun, replicateThenDump]
      · intro b; rfl

theorem dlDB_C7_init_order_witness :
    initRun true ⟨true, none, none, none, false⟩ = ([], none) ∧
    initRun false ⟨true, none, none, none, false⟩ =
      ([InitOp.loadSnapshot, InitOp.batchReplicate, InitOp.dumpSnapshot,
        InitOp.markSynced, InitOp.startLive], none) :=
  ⟨(dlDB_C7_init_order ⟨true, none, none, none, false⟩ rfl rfl rfl).1,
    (dlDB_C7_init_order ⟨true, none, none, none, false⟩ rfl rfl rfl).2.1⟩

/-- Environment of one checkpoint loop iteration: how long the awaited
init() and dump() take and how they settle (none is success). -/
structure SchedIter where
  initDur : Nat
  initResult : Option Nat
  dumpDur : Nat
  dumpResult : Option Nat
deriving DecidableEq, Repr

/-- A timed action of the checkpoint loop: the loop calling init() or
dump() at an absolute time, with the settlement it observed. -/
inductive SchedEv
  | initCall (time : Nat) (r : Option Nat)
  | dumpCall (time : Nat) (r : Option Nat)
deriving DecidableEq, Repr

def evTime : SchedEv → Nat
  | SchedEv.initCall time _ => time
  | SchedEv.dumpCall time _ => time

/-- The checkpoint loop _scheduleDBDump (src lines 388 to 396), started
by the constructor (src line 270), run against a list of iteration
environments: each round first awaits one full checkpoint interval, then
awaits init(), then awaits dump(), then reschedules itself via
process.nextTick. A rejection of either await rejects the (unobserved)
loop promise, so the reschedule on line 395 never runs and the loop
ends. -/
def schedRun (interval : Nat) : Nat → List SchedIter → List SchedEv
  | _, [] => []
  | now, it :: rest =>
      match it.initResult with
      | some e => [SchedEv.initCall (now + interval) (some e)]
      | none =>
          match it.dumpResult with
          | some e => [SchedEv.initCall (now + interval) none,
              SchedEv.dumpCall (now + interval + it.initDur) (some e)]
          | none => SchedEv.initCall (now + interval) none ::
              SchedEv.dumpCall (now + interval + it.initDur) none ::
              schedRun interval (now + interval + it.initDur + it.dumpDur)
                rest

def isDump : SchedEv → Bool
  | SchedEv.dumpCall _ _ => true
  | _ => false

/-- Number of dump() triggers in a checkpoint loop run. -/
def schedDumps (l : List SchedEv) : Nat := (l.filter isDump).length

/-- Every iteration environment succeeds. -/
def allSucceed (iters : List SchedIter) : Prop :=
  ∀ it ∈ iters, it.initResult = none ∧ it.dumpResult = none

/-- The run alternates successful init() and dump() actions. -/
def alternatesInitDump : List SchedEv → Bool
  | [] => true
  | SchedEv.initCall _ none :: SchedEv.dumpCall _ none :: rest =>
      alternatesInitDump rest
  | _ => false

/-- The C8 claim as frozen, read over the scheduler model: whatever the
iteration environments are, every iteration performs its dump() trigger
and the loop keeps repeating for the whole process lifetime. -/
def schedRepeatsStated : Prop :=
  ∀ (interval : Nat) (iters : List SchedIter),
    schedDumps (schedRun interval 0 iters) = iters.length

/-- C8 counterexample: with an iteration whose init() rejects, the loop
stops at that await (the process.nextTick reschedule of src line 395 is
never reached and the rejection is unobserved), so no dump() trigger
happens for that iteration or ever after — the loop does not run for the
process lifetime. -/
theorem dlDB_C8_counterexample : ¬ schedRepeatsStated := by
  intro hc
  have h1 := hc 10 [⟨0, some 3, 0, none⟩]
  simp [schedRun, schedDumps, List.filter, isDump] at h1

/-- C8 amended: the checkpoint loop performs no action before one full
checkpoint interval has elapsed after construction; each iteration waits
the fixed interval, calls init(), then triggers dump(), and repeats — as
long as both awaits resolve: when every iteration succeeds the run is an
unbroken alternation of init and dump with one dump per iteration, and
the first rejection of init() or dump() ends the loop with nothing
rescheduled. -/
theorem dlDB_C8_loop_amended (interval now : Nat)
    (iters : List SchedIter) :
    (∀ ev ∈ schedRun interval now iters, now + interval ≤ evTime ev) ∧
    (allSucceed iters →
      schedDumps (schedRun interval now iters) = iters.length ∧
      alternatesInitDump (schedRun interval now iters) = true) ∧
    (∀ (it : SchedIter) (rest : List SchedIter) (e : Nat),
      it.initResult = some e →
      schedRun interval now (it :: rest) =
        [SchedEv.initCall (now + interval) (some e)]) ∧
    (∀ (it : SchedIter) (rest : List SchedIter) (e : Nat),
      it.initResult = none → it.dumpResult = some e →
      schedRun interval now (it :: rest) =
        [SchedEv.initCall (now + interval) none,
          SchedEv.dumpCall (now + interval + it.initDur) (some e)]) := by
  refine ⟨?_, ?_, ?_, ?_⟩
  · induction iters generalizing now with
    | nil => intro ev hev; simp [schedRun] at hev
    | cons it rest ih =>
        intro ev hev
        cases hir : it.initResult with
        | some e =>
            simp only [schedRun, hir, List.mem_singleton] at hev
            subst hev
            simp only [evTime]
            omega
        | none =>
            cases hdr : it.dumpResult with
            | some e =>
                simp only [schedRun, hir, hdr, List.mem_cons,
                  List.not_mem_nil, or_false] at hev
                rcases hev with hev | hev
                · subst hev; simp only [evTime]; omega
                · subst hev; simp only [evTime]; omega
            | none =>
                simp only [schedRun, hir, hdr, List.mem_cons] at hev
                rcases hev with hev | hev | hev
                · subst hev; simp only [evTime]; omega
                · subst hev; simp only [evTime]; omega
                · have := ih (now + interval + it.initDur + it.dumpDur)
                    ev hev
                  omega
  · induction iters generalizing now with
    | nil => intro _; simp [schedRun, schedDumps, alternatesInitDump]
    | cons it rest ih =>
        intro hall
        have hit := hall it (by simp)
        have hrest : allSucceed rest := by
          intro it2 hit2
          exact hall it2 (by simp [hit2])
        obtain ⟨hdc, halt⟩ :=
          ih (now + interval + it.initDur + it.dumpDur) hrest
        constructor
        · simp only [schedRun, hit.1, hit.2, schedDumps, List.filter,
            isDump]
          simp only [schedDumps] at hdc
          simp [hdc]
        · simp only [schedRun, hit.1, hit.2, alternatesInitDump]
          exact halt
  · intro it rest e hir
    simp [schedRun, hir]
  · intro it rest e hir hdr
    simp [schedRun, hir, hdr]

theorem dlDB_C8_loop_amended_witness :
    schedDumps (schedRun 10 0 [⟨1, none, 2, none⟩]) = 1 :=
  ((dlDB_C8_loop_amended 10 0 [⟨1, none, 2, none⟩]).2.1
    (by intro it hit; simp at hit; simp [hit])).1

end WDWDB
